import Mathlib

/-!
Verification of the song-masher backend against its specification.

The definitions below are a shallow embedding of the Python sources:
  * src/backend/planning.py  (class MashupPlanner)
  * src/backend/render.py    (class MashupRenderer)
  * src/backend/analysis.py  (class AudioAnalyzer)

Python floats are modelled by ℚ where the code only adds, multiplies,
divides and compares, and by ℝ where square roots or decibel powers
occur (RMS normalization, mastering).  Python dicts keyed by strings
are association lists; dict.get with a default is List.find? followed
by getD.  Dict iteration order is insertion order, which the list
order reproduces.
-/

set_option maxRecDepth 20000

namespace SongMasher

/-! ## Camelot tables (planning.py: _build_key_compatibility, _calculate_key_shift) -/

/-- The Camelot wheel positions, in the insertion order of the source's
camelot_keys / camelot_positions dicts (they hold the same 24 entries). -/
def camelotPairs : List (String × ℕ) :=
  [("1A", 0), ("2A", 1), ("3A", 2), ("4A", 3), ("5A", 4), ("6A", 5),
   ("7A", 6), ("8A", 7), ("9A", 8), ("10A", 9), ("11A", 10), ("12A", 11),
   ("1B", 12), ("2B", 13), ("3B", 14), ("4B", 15), ("5B", 16), ("6B", 17),
   ("7B", 18), ("8B", 19), ("9B", 20), ("10B", 21), ("11B", 22), ("12B", 23)]

/-- The 24 Camelot labels in table order (dict key iteration order). -/
def camelotList : List String := camelotPairs.map Prod.fst

/-- Position of a label on the wheel; 0 when absent
(source: camelot_positions.get(key, 0)). -/
def camelotPos (k : String) : ℕ :=
  ((camelotPairs.find? fun p => p.1 = k).map Prod.snd).getD 0

/-- Ring distance: min(abs(pos - other_pos), 24 - abs(pos - other_pos)). -/
def ringDist (p q : ℕ) : ℕ :=
  min ((p : ℤ) - q).natAbs (24 - ((p : ℤ) - q).natAbs)

/-- Bucketing of a ring distance into a compatibility score 0..5
(planning.py lines 95-106). -/
def scoreOfDist (d : ℕ) : ℕ :=
  if d = 0 then 0
  else if d = 1 then 1
  else if d = 2 then 2
  else if d ≤ 4 then 3
  else if d ≤ 6 then 4
  else 5

/-- compatibility[key][other_key] for two table labels. -/
def compatScore (k k2 : String) : ℕ := scoreOfDist (ringDist (camelotPos k) (camelotPos k2))

/-- self.key_compatibility.get(a, dict()).get(b, 5): the score when both labels are
table keys, 5 otherwise (_analyze_compatibility line 115). -/
def compatLookup (a b : String) : ℕ :=
  if a ∈ camelotList ∧ b ∈ camelotList then compatScore a b else 5

/-- self.key_compatibility[target].get(cam, 5) where target is a table key
(_choose_target_key lines 181-182). -/
def targetScore (t cam : String) : ℕ :=
  if cam ∈ camelotList then compatScore t cam else 5

/-! ## Key parsing and shifts (planning.py: _key_to_camelot, _calculate_key_shift) -/

/-- The key_map dict of _key_to_camelot. -/
def keyMapPairs : List (String × String) :=
  [("C", "8B"), ("C#", "3B"), ("D", "10B"), ("D#", "5B"), ("E", "12B"), ("F", "7B"),
   ("F#", "2B"), ("G", "9B"), ("G#", "4B"), ("A", "11B"), ("A#", "6B"), ("B", "1B"),
   ("Cm", "5A"), ("C#m", "12A"), ("Dm", "7A"), ("D#m", "2A"), ("Em", "9A"), ("Fm", "4A"),
   ("F#m", "11A"), ("Gm", "6A"), ("G#m", "1A"), ("Am", "8A"), ("A#m", "3A"), ("Bm", "10A")]

/-- key_map.get(key, "8B"): default to C major for unrecognized keys. -/
def keyToCamelot (key : String) : String :=
  ((keyMapPairs.find? fun p => p.1 = key).map Prod.snd).getD "8B"

/-- _calculate_key_shift: shift = (to_pos - from_pos) % 12, folded to (-6, 6].
Int.emod agrees with Python % on a positive modulus. -/
def calculateKeyShift (fromKey toKey : String) : ℤ :=
  let fromPos : ℤ := camelotPos fromKey
  let toPos : ℤ := camelotPos toKey
  let shift := (toPos - fromPos) % 12
  if shift > 6 then shift - 12 else shift

/-! ## Target key selection (planning.py: _choose_target_key) -/

/-- One step of the source's scan: keep the first strict minimizer
(if total_score < best_score: update). -/
def bestStep (f : String → ℕ) (acc : Option String × WithTop ℕ) (t : String) :
    Option String × WithTop ℕ :=
  if (f t : WithTop ℕ) < acc.2 then (some t, (f t : WithTop ℕ)) else acc

/-- The scan over all targets, starting from best_key = None, best_score = inf. -/
def bestScan (f : String → ℕ) (l : List String) : Option String × WithTop ℕ :=
  l.foldl (bestStep f) (none, ⊤)

/-- _choose_target_key: scan the 24 targets in table order keeping the first strict
minimizer of scoreA + scoreB, then compute both shifts.   The scan over the
nonempty table always yields a key, so the getD fallback is unreachable
(and "1A" has position 0, matching the source's .get default of 0). -/
def chooseTargetKey (keyA keyB : String) : String × ℤ × ℤ :=
  let camelotA := keyToCamelot keyA
  let camelotB := keyToCamelot keyB
  let best :=
    ((bestScan (fun t => targetScore t camelotA + targetScore t camelotB) camelotList).1).getD "1A"
  (best, calculateKeyShift camelotA best, calculateKeyShift camelotB best)

/-! ### Spec-modelled target choice (for comparison with chooseTargetKey) -/

/-- Lexicographic comparison of character codes, as Python compares strings. -/
def charListLt : List Char → List Char → Bool
  | [], [] => false
  | [], _ :: _ => true
  | _ :: _, [] => false
  | a :: as, b :: bs =>
    if a.toNat < b.toNat then true
    else if b.toNat < a.toNat then false
    else charListLt as bs

/-- String lexicographic order on code points (Python str comparison). -/
def strLt (a b : String) : Bool := charListLt a.data b.data

/-- The ring-distance sum objective the spec prescribes for target selection. -/
def specRingDistSum (camA camB t : String) : ℕ :=
  ringDist (camelotPos t) (camelotPos camA) + ringDist (camelotPos t) (camelotPos camB)

/-- Modelled from the spec: enumerate all 24 Camelot targets and pick the
argmin of dist(camelot_a, t) + dist(camelot_b, t), ties broken by lowest
lexicographic label. -/
def specTargetKey (camA camB : String) : String :=
  camelotList.foldl
    (fun best t =>
      if specRingDistSum camA camB t < specRingDistSum camA camB best
          ∨ (specRingDistSum camA camB t = specRingDistSum camA camB best ∧ strLt t best)
      then t else best)
    "1A"

/-! ## Dynamic time warping (planning.py: _dtw_align)

The source fills an (m+1) x (n+1) table over a distance matrix and then
backtracks.  The table is the recurrence dtw[i,j] = D[i-1,j-1] +
min(dtw[i-1,j], dtw[i,j-1], dtw[i-1,j-1]) with dtw[0,0] = 0 and an infinite
first row and column; infinity is the top element of WithTop.  The recursion
is phrased with an explicit fuel argument equal to i + j so that it is
structural (each recursive call lowers i + j by at least one and the fuel by
exactly one); dtwGo is independent of any sufficient fuel, which
dtwGo_eq_of_le proves.  The functions are generic in the ordered additive
type of distances: the source applies them to Euclidean distances (ℝ here)
and the analysis below also instantiates them at ℚ. -/

/-- The DTW table recurrence, fueled. -/
def dtwGo {α : Type} [LinearOrder α] [Add α] [Zero α]
    (D : List (List α)) : ℕ → ℕ → ℕ → WithTop α
  | _, 0, 0 => 0
  | _, 0, _ + 1 => ⊤
  | _, _ + 1, 0 => ⊤
  | 0, _ + 1, _ + 1 => ⊤
  | fuel + 1, i + 1, j + 1 =>
    (((D.getD i []).getD j 0 : α) : WithTop α)
      + min (dtwGo D fuel i (j + 1)) (min (dtwGo D fuel (i + 1) j) (dtwGo D fuel i j))

/-- Value of the DTW table at (i, j). -/
def dtwTable {α : Type} [LinearOrder α] [Add α] [Zero α]
    (D : List (List α)) (i j : ℕ) : WithTop α :=
  dtwGo D (i + j) i j

/-- The backtracking loop of _dtw_align, fueled like dtwGo.  At (i, j) with
both positive it records (i-1, j-1) and moves to the predecessor chosen by
the source's branch order: up when dtw[i-1,j] is minimal, else left when
dtw[i,j-1] <= dtw[i-1,j-1], else diagonal. -/
def backGo {α : Type} [LinearOrder α] [Add α] [Zero α]
    (D : List (List α)) : ℕ → ℕ → ℕ → List (ℕ × ℕ)
  | _, 0, _ => []
  | _, _ + 1, 0 => []
  | 0, _ + 1, _ + 1 => []
  | fuel + 1, i + 1, j + 1 =>
    (i, j) ::
      (if dtwTable D i (j + 1) ≤ dtwTable D (i + 1) j
          ∧ dtwTable D i (j + 1) ≤ dtwTable D i j then
        backGo D fuel i (j + 1)
      else if dtwTable D (i + 1) j ≤ dtwTable D i j then
        backGo D fuel (i + 1) j
      else
        backGo D fuel i j)

/-- The backtrack from (i, j). -/
def dtwBacktrack {α : Type} [LinearOrder α] [Add α] [Zero α]
    (D : List (List α)) (i j : ℕ) : List (ℕ × ℕ) :=
  backGo D (i + j) i j

/-- The predecessor cell the backtracking loop moves to from (i+1, j+1). -/
def nextCell {α : Type} [LinearOrder α] [Add α] [Zero α]
    (D : List (List α)) (i j : ℕ) : ℕ × ℕ :=
  if dtwTable D i (j + 1) ≤ dtwTable D (i + 1) j
      ∧ dtwTable D i (j + 1) ≤ dtwTable D i j then (i, j + 1)
  else if dtwTable D (i + 1) j ≤ dtwTable D i j then (i + 1, j)
  else (i, j)

/-- _dtw_align: backtrack from (m, n) and reverse the trace. -/
def dtwAlign {α : Type} [LinearOrder α] [Add α] [Zero α]
    (D : List (List α)) : List (ℕ × ℕ) :=
  (dtwBacktrack D D.length ((D.headD []).length)).reverse

/-- Modelled from the spec: the backtrack that prefers the diagonal
predecessor on ties (the spec leaves the up-versus-left tie open; up is
taken first, matching its listing order). -/
def specBackGo {α : Type} [LinearOrder α] [Add α] [Zero α]
    (D : List (List α)) : ℕ → ℕ → ℕ → List (ℕ × ℕ)
  | _, 0, _ => []
  | _, _ + 1, 0 => []
  | 0, _ + 1, _ + 1 => []
  | fuel + 1, i + 1, j + 1 =>
    (i, j) ::
      (if dtwTable D i j ≤ dtwTable D i (j + 1) ∧ dtwTable D i j ≤ dtwTable D (i + 1) j then
        specBackGo D fuel i j
      else if dtwTable D i (j + 1) ≤ dtwTable D (i + 1) j then
        specBackGo D fuel i (j + 1)
      else
        specBackGo D fuel (i + 1) j)

/-- Modelled from the spec: DTW alignment with diagonal-preferring backtrack. -/
def specDtwAlign {α : Type} [LinearOrder α] [Add α] [Zero α]
    (D : List (List α)) : List (ℕ × ℕ) :=
  (specBackGo D (D.length + (D.headD []).length) D.length ((D.headD []).length)).reverse

/-! ## Key detection tables (analysis.py: _analyze_key) -/

/-- Association-list lookup with a default (dict.get). -/
def lookupStr (ps : List (String × String)) (k d : String) : String :=
  ((ps.find? fun p => p.1 = k).map Prod.snd).getD d

/-- The twelve pitch-class roots in the order of the source's keys list. -/
def keysList : List String :=
  ["C", "C#", "D", "D#", "E", "F"] ++ ["F#", "G", "G#", "A", "A#", "B"]

/-- camelot_map of _analyze_key: major roots to B-ring labels. -/
def camelotMapPairs : List (String × String) :=
  [("C", "8B"), ("C#", "3B"), ("D", "10B"), ("D#", "5B"), ("E", "12B"), ("F", "7B"),
   ("F#", "2B"), ("G", "9B"), ("G#", "4B"), ("A", "11B"), ("A#", "6B"), ("B", "1B")]

/-- minor_to_major of _analyze_key (the source maps each minor root three
semitones DOWN: C to A, and so on). -/
def minorToMajorPairs : List (String × String) :=
  [("C", "A"), ("C#", "A#"), ("D", "B"), ("D#", "C"), ("E", "C#"), ("F", "D"),
   ("F#", "D#"), ("G", "E"), ("G#", "F"), ("A", "F#"), ("A#", "G"), ("B", "G#")]

/-- The camelot label _analyze_key returns for a detected (mode, root):
minor roots go through minor_to_major and then camelot_map, so a minor key
also receives a B-ring label. -/
def analyzeKeyCamelot (mode root : String) : String :=
  if mode = "minor" then lookupStr camelotMapPairs (lookupStr minorToMajorPairs root "") ""
  else lookupStr camelotMapPairs root ""

/-- The key string _analyze_key returns: best_key + best_mode[0].upper();
both "major" and "minor" start with the letter m, so the suffix is always "M". -/
def analyzeKeyLabel (mode root : String) : String :=
  root ++ (if mode = "minor" then "M" else "M")

/-- Modelled from the spec: major roots use the fixed table; a minor root r
maps to the relative major (r + 3) mod 12 and takes the A-ring label with
that major's number. -/
def specCamelotOfKey (mode root : String) : String :=
  if mode = "minor" then
    let rel := keysList.getD ((keysList.indexOf root + 3) % 12) ""
    (lookupStr camelotMapPairs rel "").dropRight 1 ++ "A"
  else lookupStr camelotMapPairs root ""

/-! ## Structure analysis (analysis.py: _analyze_structure) -/

/-- A section; the source's dict has keys start, end, label (end is a Lean
keyword, rendered stop). -/
structure Section where
  start : ℚ
  stop : ℚ
  label : String
deriving DecidableEq

/-- The i % 4 labeling of _analyze_structure. -/
def sectionLabel (i : ℕ) : String :=
  if i % 4 = 0 then "chorus"
  else if i % 4 = 1 then "verse"
  else if i % 4 = 2 then "bridge"
  else "verse"

/-- The section list built from boundary times (seconds) and the duration:
section i starts at 0 (i = 0) or times[i-1] and ends at times[i], except the
last one which ends at the duration. -/
def analyzeStructure (times : List ℚ) (duration : ℚ) : List Section :=
  (List.range times.length).map fun i =>
    { start := if i = 0 then 0 else times.getD (i - 1) 0
      stop := if i = times.length - 1 then duration else times.getD i 0
      label := sectionLabel i }

/-- Modelled from the spec: the segment endpoints are
(0, b1), (b1, b2), ..., (bn, duration), every boundary used as a cut. -/
def specStructure (times : List ℚ) (duration : ℚ) : List (ℚ × ℚ) :=
  (0 :: times).zip (times ++ [duration])

/-! ## Tempo alignment (planning.py: _calculate_tempo_alignment) -/

structure StretchMap where
  targetBpm : ℚ
  stretchA : ℚ
  stretchB : ℚ
  quality : String
deriving DecidableEq

/-- _calculate_tempo_alignment: target is the larger bpm, stretches are clamped
to [0.5, 2.0], quality is "high" iff the larger stretch is below 1.5.
The beats arguments are accepted and ignored exactly as in the source. -/
def calculateTempoAlignment (bpmA bpmB : ℚ) (beatsA beatsB : List ℚ) : StretchMap :=
  let targetBpm := if bpmA > bpmB then bpmA else bpmB
  let stretchA := max (1/2) (min 2 (targetBpm / bpmA))
  let stretchB := max (1/2) (min 2 (targetBpm / bpmB))
  { targetBpm := targetBpm
    stretchA := stretchA
    stretchB := stretchB
    quality := if max stretchA stretchB < 3/2 then "high" else "medium" }

/-! ## Renderer: transforms and mixing (render.py) -/

/-- Compatibility summary of _analyze_compatibility. -/
structure Compat where
  keyScore : ℕ
  tempoScore : ℕ
  structureScore : ℕ
  overallScore : ℚ
deriving DecidableEq

/-- One aligned pair produced by _pair_sections. -/
structure SectionPair where
  sectionA : Section
  sectionB : Section
  alignment : ℕ
  confidence : ℚ
deriving DecidableEq

/-- The plan dict returned by create_plan. -/
structure Plan where
  targetKey : String
  keyShiftA : ℤ
  keyShiftB : ℤ
  stretchMap : StretchMap
  sectionPairs : List SectionPair
  qualityHints : List String
  recipe : String
  compatibility : Compat
deriving DecidableEq

/-- _apply_transforms: for each stem of the four known names, the
(stretch_ratio, pitch_shift) pair handed to the Rubber Band transform.
Track selection is the source's line 61:
track = "A" if stem_name in ["vocals"] else "B" - the recipe is not
consulted.  The external rubberband process (or its copy fallback) applies
exactly this pair, so the embedding records the pair per stem name. -/
def applyTransforms (stems : List (String × List ℚ)) (plan : Plan) :
    List (String × (ℚ × ℤ)) :=
  stems.filterMap fun st =>
    if st.1 ∈ ["vocals", "drums", "bass", "other"] then
      some (st.1,
        if st.1 ∈ (["vocals"] : List String) then (plan.stretchMap.stretchA, plan.keyShiftA)
        else (plan.stretchMap.stretchB, plan.keyShiftB))
    else none

/-- Modelled from the spec: the recipe mix table's source track per stem
(AoverB: vocals from A, rest from B; BoverA swapped; HybridDrums: vocals A,
drums B, bass and other mixed). -/
def specStemSource (recipe stem : String) : String :=
  if recipe = "AoverB" then (if stem = "vocals" then "A" else "B")
  else if recipe = "BoverA" then (if stem = "vocals" then "B" else "A")
  else if stem = "vocals" then "A"
  else if stem = "drums" then "B"
  else "mixed"

/-- mix_params.get(key, default). -/
def lookupGain (mp : List (String × ℚ)) (k : String) (d : ℚ) : ℚ :=
  ((mp.find? fun p => p.1 = k).map Prod.snd).getD d

/-- stem_audios.get-like lookup of a loaded stem by name. -/
def getStem (stems : List (String × List ℚ)) (k : String) : Option (List ℚ) :=
  (stems.find? fun p => p.1 = k).map Prod.snd

/-- max_length over the loaded stems (starts at 0). -/
def maxStemLength (stems : List (String × List ℚ)) : ℕ :=
  stems.foldl (fun m st => max m st.2.length) 0

/-- mix += audio * gain.  The stems satisfy the equal-length stem contract
(numpy would reject a length mismatch); shorter operands are zero-padded to
the mix length so the sum is total. -/
def addStem (mix xs : List ℚ) (g : ℚ) : List ℚ :=
  List.zipWith (fun m x => m + x * g) mix (xs ++ List.replicate (mix.length - xs.length) 0)

/-- The guarded accumulation: if name in stem_audios, add it at gain g. -/
def addIf (stems : List (String × List ℚ)) (mix : List ℚ) (name : String) (g : ℚ) : List ℚ :=
  match getStem stems name with
  | some a => addStem mix a g
  | none => mix

/-- _mix_stems: start from zeros of max_length and add the four stems with
the recipe's gain defaults (AoverB and BoverA use the same gains
1.0/0.8/0.7/0.6; HybridDrums uses 1.0/0.9/0.8/0.7); an unknown recipe adds
nothing.  Each stem is added only when present - absence is not an error. -/
def mixStems (stems : List (String × List ℚ)) (recipe : String)
    (mixParams : List (String × ℚ)) : List ℚ :=
  let mix := List.replicate (maxStemLength stems) (0 : ℚ)
  if recipe = "AoverB" then
    let m1 := addIf stems mix "vocals" (lookupGain mixParams "vocals_gain" 1)
    let m2 := addIf stems m1 "drums" (lookupGain mixParams "drums_gain" (8/10))
    let m3 := addIf stems m2 "bass" (lookupGain mixParams "bass_gain" (7/10))
    addIf stems m3 "other" (lookupGain mixParams "other_gain" (6/10))
  else if recipe = "BoverA" then
    let m1 := addIf stems mix "vocals" (lookupGain mixParams "vocals_gain" 1)
    let m2 := addIf stems m1 "drums" (lookupGain mixParams "drums_gain" (8/10))
    let m3 := addIf stems m2 "bass" (lookupGain mixParams "bass_gain" (7/10))
    addIf stems m3 "other" (lookupGain mixParams "other_gain" (6/10))
  else if recipe = "HybridDrums" then
    let m1 := addIf stems mix "vocals" (lookupGain mixParams "vocals_gain" 1)
    let m2 := addIf stems m1 "drums" (lookupGain mixParams "drums_gain" (9/10))
    let m3 := addIf stems m2 "bass" (lookupGain mixParams "bass_gain" (8/10))
    addIf stems m3 "other" (lookupGain mixParams "other_gain" (7/10))
  else mix

/-! ## Renderer: mastering (render.py: _master_audio, _normalize_rms)

Samples are reals here because the RMS involves a square root and the
headroom factor a real power of ten. -/

/-- Sum of squared samples. -/
noncomputable def sumSq (xs : List ℝ) : ℝ := (xs.map fun x => x ^ 2).sum

/-- np.sqrt(np.mean(audio ** 2)). -/
noncomputable def rmsOf (xs : List ℝ) : ℝ := Real.sqrt (sumSq xs / xs.length)

/-- np.max(np.abs(audio)) (0 for the empty list, which numpy rejects). -/
noncomputable def peakOf (xs : List ℝ) : ℝ := (xs.map fun x => |x|).foldr max 0

/-- _normalize_rms: scale to target RMS 0.1 when the current RMS is positive.
There is no peak guard after this gain. -/
noncomputable def normalizeRms (xs : List ℝ) : List ℝ :=
  if 0 < rmsOf xs then xs.map fun x => x * (1/10 / rmsOf xs) else xs

/-- _master_audio on the RMS fallback path (pyloudnorm unavailable):
pre-peak guard at 0.99, RMS normalization, then the headroom factor
10 ^ (-headroom_db / 20). -/
noncomputable def masterAudioRms (xs : List ℝ) (headroomDb : ℝ) : List ℝ :=
  let guarded := if 99/100 < peakOf xs then xs.map fun x => x / peakOf xs * (99/100) else xs
  let normalized := normalizeRms guarded
  normalized.map fun x => x * (10 : ℝ) ^ (-headroomDb / 20)

/-! ## The planner pipeline (planning.py: create_plan and helpers) -/

/-- The fields of an analysis result that create_plan reads. -/
structure Analysis where
  bpm : ℚ
  key : String
  camelot : String
  beats : List ℚ
  sections : List Section
deriving DecidableEq

/-- The section-type dict lookup of _extract_section_features:
verse 0, chorus 1, bridge 2, default 0. -/
def sectionTypeId (label : String) : ℚ :=
  if label = "verse" then 0
  else if label = "chorus" then 1
  else if label = "bridge" then 2
  else 0

/-- Python max over a nonempty list (the empty case is guarded at the call). -/
def listMax : List ℚ → ℚ
  | [] => 0
  | x :: xs => xs.foldl max x

/-- One feature row of _extract_section_features: the vector
(duration, type id, position).  The position is start / max(beats) when
beats is nonempty and 0 otherwise; Python float division raises
ZeroDivisionError when max(beats) is 0.0, so that case is an error,
not a value. -/
def sectionFeature (beats : List ℚ) (s : Section) : Except String (List ℚ) :=
  if beats = [] then Except.ok [s.stop - s.start, sectionTypeId s.label, 0]
  else if listMax beats = 0 then Except.error "float division by zero"
  else Except.ok [s.stop - s.start, sectionTypeId s.label, s.start / listMax beats]

/-- _extract_section_features: the loop over the sections collecting feature
rows, stopped by the first ZeroDivisionError. -/
def extractSectionFeatures (sections : List Section) (beats : List ℚ) :
    Except String (List (List ℚ)) :=
  match sections with
  | [] => Except.ok []
  | s :: rest =>
    match sectionFeature beats s with
    | Except.ok f =>
      match extractSectionFeatures rest beats with
      | Except.ok fs => Except.ok (f :: fs)
      | Except.error e => Except.error e
    | Except.error e => Except.error e

/-- Euclidean distance between two feature rows (cdist, metric euclidean). -/
noncomputable def euclid (u v : List ℚ) : ℝ :=
  Real.sqrt (((u.zip v).map fun p => ((p.1 : ℝ) - (p.2 : ℝ)) ^ 2).sum)

/-- The cdist distance matrix. -/
noncomputable def distMatrix (fa fb : List (List ℚ)) : List (List ℝ) :=
  fa.map fun u => fb.map fun v => euclid u v

/-- _pair_sections: extract both feature lists (track A first, as the source
does, so its error surfaces first), DTW-align them, then keep the in-range
index pairs, each with its position in the alignment and the fixed
confidence 0.8.  A ZeroDivisionError from either extraction propagates. -/
noncomputable def pairSections (sectionsA sectionsB : List Section)
    (beatsA beatsB : List ℚ) : Except String (List SectionPair) :=
  match extractSectionFeatures sectionsA beatsA, extractSectionFeatures sectionsB beatsB with
  | Except.ok fa, Except.ok fb =>
    let alignment := dtwAlign (distMatrix fa fb)
    Except.ok (alignment.enum.filterMap fun p =>
      if p.2.1 < sectionsA.length ∧ p.2.2 < sectionsB.length then
        some { sectionA := sectionsA.getD p.2.1 ⟨0, 0, ""⟩
               sectionB := sectionsB.getD p.2.2 ⟨0, 0, ""⟩
               alignment := p.1
               confidence := 4/5 }
      else none)
  | Except.error e, _ => Except.error e
  | _, Except.error e => Except.error e

/-- _assess_structure_compatibility: multiset Jaccard over section labels,
bucketed at 0.8 / 0.6 / 0.4. -/
def structureCompatScore (sectionsA sectionsB : List Section) : ℕ :=
  let typesA := sectionsA.map (fun s => s.label)
  let typesB := sectionsB.map (fun s => s.label)
  let allTypes := (typesA ++ typesB).dedup
  let inter := (allTypes.map fun t => min (typesA.count t) (typesB.count t)).sum
  let uni := (allTypes.map fun t => max (typesA.count t) (typesB.count t)).sum
  if uni = 0 then 0
  else
    let similarity : ℚ := (inter : ℚ) / (uni : ℚ)
    if 4/5 ≤ similarity then 0
    else if 3/5 ≤ similarity then 1
    else if 2/5 ≤ similarity then 2
    else 3

/-- _analyze_compatibility: key score from the Camelot fields, bucketed tempo
score of bpm_a / bpm_b, structure score, and their arithmetic mean. -/
def analyzeCompatibility (trackA trackB : Analysis) : Compat :=
  let keyScore := compatLookup trackA.camelot trackB.camelot
  let r := trackA.bpm / trackB.bpm
  let tempoScore : ℕ :=
    if 8/10 ≤ r ∧ r ≤ 5/4 then 0
    else if 7/10 ≤ r ∧ r ≤ 7/5 then 1
    else if 6/10 ≤ r ∧ r ≤ 8/5 then 2
    else 3
  let structureScore := structureCompatScore trackA.sections trackB.sections
  { keyScore := keyScore
    tempoScore := tempoScore
    structureScore := structureScore
    overallScore := ((keyScore : ℚ) + (tempoScore : ℚ) + (structureScore : ℚ)) / 3 }

/-- _assess_quality: the four appended hint strings. -/
def assessQuality (compatibility : Compat) (stretchMap : StretchMap)
    (sectionPairs : List SectionPair) : List String :=
  [if compatibility.keyScore ≤ 1 then "Excellent key compatibility"
    else if compatibility.keyScore ≤ 2 then "Good key compatibility"
    else "Consider key adjustment for better harmony",
   if compatibility.tempoScore ≤ 1 then "Tempo alignment looks good"
    else "Significant tempo adjustment needed",
   if stretchMap.quality = "high" then "Minimal tempo stretching required"
    else "Moderate tempo stretching - check audio quality",
   if 3 ≤ sectionPairs.length then "Good structural alignment found"
    else "Limited structural overlap - consider manual alignment"]

/-- The keys of the recipes dict. -/
def recipeNames : List String := ["AoverB", "BoverA", "HybridDrums"]

/-- create_plan: raise for an unknown recipe, otherwise assemble the plan;
a ZeroDivisionError raised while pairing sections propagates out. -/
noncomputable def createPlan (trackA trackB : Analysis) (recipe : String) :
    Except String Plan :=
  if recipe ∈ recipeNames then
    let compatibility := analyzeCompatibility trackA trackB
    let tk := chooseTargetKey trackA.key trackB.key
    let stretchMap := calculateTempoAlignment trackA.bpm trackB.bpm trackA.beats trackB.beats
    match pairSections trackA.sections trackB.sections trackA.beats trackB.beats with
    | Except.ok sectionPairs =>
      Except.ok
        { targetKey := tk.1
          keyShiftA := tk.2.1
          keyShiftB := tk.2.2
          stretchMap := stretchMap
          sectionPairs := sectionPairs
          qualityHints := assessQuality compatibility stretchMap sectionPairs
          recipe := recipe
          compatibility := compatibility }
    | Except.error e => Except.error e
  else Except.error ("Unknown recipe: " ++ recipe)

/-- Whether a planner result is a success. -/
def planOk : Except String Plan → Bool
  | Except.ok _ => true
  | Except.error _ => false

end SongMasher

namespace SongMasher

/-- C8: for strictly positive BPMs, the plan's stretch map has
target_bpm = max(bpm_a, bpm_b), each stretch is target/bpm clamped to [0.5, 2.0]
(hence always within those bounds), and quality is "high" iff the larger
stretch is below 1.5, otherwise "medium". -/
theorem tempo_alignment_follows_spec (bpmA bpmB : ℚ) (beatsA beatsB : List ℚ)
    (hA : 0 < bpmA) (hB : 0 < bpmB) (sm : StretchMap)
    (hsm : sm = calculateTempoAlignment bpmA bpmB beatsA beatsB) :
    sm.targetBpm = max bpmA bpmB
    ∧ sm.stretchA = max (1/2) (min 2 (max bpmA bpmB / bpmA))
    ∧ sm.stretchB = max (1/2) (min 2 (max bpmA bpmB / bpmB))
    ∧ (1/2 ≤ sm.stretchA ∧ sm.stretchA ≤ 2)
    ∧ (1/2 ≤ sm.stretchB ∧ sm.stretchB ≤ 2)
    ∧ (sm.quality = "high" ↔ max sm.stretchA sm.stretchB < 3/2)
    ∧ (sm.quality = "medium" ↔ ¬ max sm.stretchA sm.stretchB < 3/2) := by
  have hmax : (if bpmA > bpmB then bpmA else bpmB) = max bpmA bpmB := by
    rcases le_or_lt bpmA bpmB with h | h
    · simp [not_lt.mpr h, max_eq_right h]
    · simp [h, max_eq_left h.le]
  have h2 : sm.stretchA = max (1/2) (min 2 (max bpmA bpmB / bpmA)) := by
    simp [hsm, calculateTempoAlignment, hmax]
  have h3 : sm.stretchB = max (1/2) (min 2 (max bpmA bpmB / bpmB)) := by
    simp [hsm, calculateTempoAlignment, hmax]
  have hq : sm.quality = (if max sm.stretchA sm.stretchB < 3/2 then "high" else "medium") := by
    rw [hsm]; rfl
  refine ⟨?_, h2, h3, ?_, ?_, ?_, ?_⟩
  · rw [hsm]; simpa [calculateTempoAlignment] using hmax
  · exact h2 ▸ ⟨le_max_left _ _, max_le (by norm_num) (min_le_left _ _)⟩
  · exact h3 ▸ ⟨le_max_left _ _, max_le (by norm_num) (min_le_left _ _)⟩
  · rw [hq]
    by_cases h : max sm.stretchA sm.stretchB < 3/2
    · rw [if_pos h]; exact iff_of_true rfl h
    · rw [if_neg h]; exact iff_of_false (by decide) h
  · rw [hq]
    by_cases h : max sm.stretchA sm.stretchB < 3/2
    · rw [if_pos h]; exact iff_of_false (by decide) (not_not_intro h)
    · rw [if_neg h]; exact iff_of_true rfl h

/-! ### The scan of _choose_target_key keeps the first strict minimizer -/

/-- Scanning from a current best b, the fold ends on the first element of the
whole scan that attains the minimum: either b itself (when nothing beats it)
or an element of l that strictly beats b and everything before it. -/
theorem foldl_bestStep_spec (f : String → ℕ) :
    ∀ (l : List String) (b : String),
      ∃ c, l.foldl (bestStep f) (some b, (f b : WithTop ℕ)) = (some c, (f c : WithTop ℕ))
        ∧ ((c = b ∧ ∀ t ∈ l, f b ≤ f t)
          ∨ (∃ pre post, l = pre ++ c :: post ∧ f c < f b
              ∧ (∀ u ∈ pre, f c < f u) ∧ (∀ u ∈ post, f c ≤ f u)))
  | [], b => ⟨b, rfl, Or.inl ⟨rfl, by simp⟩⟩
  | x :: l, b => by
    rw [List.foldl_cons]
    by_cases h : f x < f b
    · have hstep : bestStep f (some b, (f b : WithTop ℕ)) x = (some x, (f x : WithTop ℕ)) := by
        simp [bestStep, h]
      rw [hstep]
      obtain ⟨c, hfold, hspec⟩ := foldl_bestStep_spec f l x
      refine ⟨c, hfold, Or.inr ?_⟩
      rcases hspec with ⟨rfl, hmin⟩ | ⟨pre, post, hsplit, hlt, hpre, hpost⟩
      · exact ⟨[], l, rfl, h, by simp, hmin⟩
      · exact ⟨x :: pre, post, by rw [hsplit, List.cons_append], hlt.trans h,
          by
            intro u hu
            rcases List.mem_cons.mp hu with rfl | hu
            · exact hlt
            · exact hpre u hu,
          hpost⟩
    · have hstep : bestStep f (some b, (f b : WithTop ℕ)) x = (some b, (f b : WithTop ℕ)) := by
        simp [bestStep, h]
      rw [hstep]
      obtain ⟨c, hfold, hspec⟩ := foldl_bestStep_spec f l b
      refine ⟨c, hfold, ?_⟩
      rcases hspec with ⟨rfl, hmin⟩ | ⟨pre, post, hsplit, hlt, hpre, hpost⟩
      · refine Or.inl ⟨rfl, ?_⟩
        intro t ht
        rcases List.mem_cons.mp ht with rfl | ht
        · exact le_of_not_lt h
        · exact hmin t ht
      · refine Or.inr ⟨x :: pre, post, by rw [hsplit, List.cons_append], hlt, ?_, hpost⟩
        intro u hu
        rcases List.mem_cons.mp hu with rfl | hu
        · exact hlt.trans_le (le_of_not_lt h)
        · exact hpre u hu

/-- bestScan on a nonempty list yields the first element minimizing f. -/
theorem bestScan_spec (f : String → ℕ) (l : List String) (hl : l ≠ []) :
    ∃ c, bestScan f l = (some c, (f c : WithTop ℕ))
      ∧ ∃ pre post, l = pre ++ c :: post
        ∧ (∀ t ∈ l, f c ≤ f t) ∧ (∀ u ∈ pre, f c < f u) := by
  cases l with
  | nil => exact absurd rfl hl
  | cons x xs =>
    have hstep : bestStep f (none, ⊤) x = (some x, (f x : WithTop ℕ)) := by
      simp [bestStep, WithTop.coe_lt_top]
    obtain ⟨c, hfold, hspec⟩ := foldl_bestStep_spec f xs x
    refine ⟨c, ?_, ?_⟩
    · rw [bestScan, List.foldl_cons, hstep, hfold]
    rcases hspec with ⟨rfl, hmin⟩ | ⟨pre, post, hsplit, hlt, hpre, hpost⟩
    · refine ⟨[], xs, rfl, ?_, by simp⟩
      intro t ht
      rcases List.mem_cons.mp ht with rfl | ht
      · exact le_refl _
      · exact hmin t ht
    · refine ⟨x :: pre, post, by rw [hsplit, List.cons_append], ?_, ?_⟩
      · intro t ht
        rcases List.mem_cons.mp ht with rfl | ht
        · exact (hlt.trans_le (le_refl _)).le
        · rw [hsplit] at ht
          rcases List.mem_append.mp ht with ht | ht
          · exact (hpre t ht).le
          · rcases List.mem_cons.mp ht with rfl | ht
            · exact le_refl _
            · exact hpost t ht
      · intro u hu
        rcases List.mem_cons.mp hu with rfl | hu
        · exact hlt
        · exact hpre u hu

/-- C5 (amended): the chosen target is the first label in the table order
1A..12A,1B..12B minimizing the sum of the two bucketed compatibility scores. -/
theorem choose_target_first_min_bucketed_score (keyA keyB : String) :
    ∃ pre post,
      camelotList = pre ++ (chooseTargetKey keyA keyB).1 :: post
      ∧ (∀ t ∈ camelotList,
          targetScore (chooseTargetKey keyA keyB).1 (keyToCamelot keyA)
            + targetScore (chooseTargetKey keyA keyB).1 (keyToCamelot keyB)
          ≤ targetScore t (keyToCamelot keyA) + targetScore t (keyToCamelot keyB))
      ∧ (∀ u ∈ pre,
          targetScore (chooseTargetKey keyA keyB).1 (keyToCamelot keyA)
            + targetScore (chooseTargetKey keyA keyB).1 (keyToCamelot keyB)
          < targetScore u (keyToCamelot keyA) + targetScore u (keyToCamelot keyB)) := by
  obtain ⟨c, hscan, pre, post, hsplit, hmin, hpre⟩ :=
    bestScan_spec
      (fun t => targetScore t (keyToCamelot keyA) + targetScore t (keyToCamelot keyB))
      camelotList (by decide)
  have hbest : (chooseTargetKey keyA keyB).1 = c := by
    simp [chooseTargetKey, hscan]
  refine ⟨pre, post, ?_, ?_, ?_⟩ <;> rw [hbest]
  · exact hsplit
  · exact hmin
  · exact hpre

/-- C5 counterexample: with camelot_a = 1A (key G#m) and camelot_b = 1B (key B)
all 24 targets tie at ring-distance sum 12, the lexicographically lowest label
is 10A, but the code picks 1A (the first table entry). -/
theorem choose_target_differs_from_lex_distance_argmin :
    keyToCamelot "G#m" = "1A" ∧ keyToCamelot "B" = "1B"
    ∧ (chooseTargetKey "G#m" "B").1 = "1A"
    ∧ specTargetKey "1A" "1B" = "10A"
    ∧ specRingDistSum "1A" "1B" "10A" = specRingDistSum "1A" "1B" "1A"
    ∧ strLt "10A" "1A" = true
    ∧ (chooseTargetKey "G#m" "B").1 ≠ specTargetKey "1A" "1B" := by decide

/-! ### DTW fuel elimination and backtrack analysis -/

/-- dtwGo does not depend on the fuel once it is at least i + j. -/
theorem dtwGo_eq_of_le {α : Type} [LinearOrder α] [Add α] [Zero α] (D : List (List α)) :
    ∀ (f1 f2 i j : ℕ), i + j ≤ f1 → i + j ≤ f2 → dtwGo D f1 i j = dtwGo D f2 i j := by
  intro f1
  induction f1 with
  | zero =>
    intro f2 i j h1 h2
    have hi : i = 0 := by omega
    have hj : j = 0 := by omega
    subst hi; subst hj
    cases f2 <;> rfl
  | succ f ih =>
    intro f2 i j h1 h2
    match i, j with
    | 0, 0 => cases f2 <;> rfl
    | 0, j + 1 => cases f2 <;> rfl
    | i + 1, 0 => cases f2 <;> rfl
    | i + 1, j + 1 =>
      cases f2 with
      | zero => omega
      | succ f2 =>
        simp only [dtwGo]
        rw [ih f2 i (j + 1) (by omega) (by omega), ih f2 (i + 1) j (by omega) (by omega),
          ih f2 i j (by omega) (by omega)]

/-- The table satisfies the DTW recurrence of the spec. -/
theorem dtwTable_succ_succ {α : Type} [LinearOrder α] [Add α] [Zero α]
    (D : List (List α)) (i j : ℕ) :
    dtwTable D (i + 1) (j + 1)
      = (((D.getD i []).getD j 0 : α) : WithTop α)
        + min (dtwTable D i (j + 1)) (min (dtwTable D (i + 1) j) (dtwTable D i j)) := by
  show dtwGo D (i + 1 + (j + 1)) (i + 1) (j + 1) = _
  rw [show i + 1 + (j + 1) = (i + j + 1) + 1 from by omega]
  simp only [dtwGo]
  rw [dtwGo_eq_of_le D (i + j + 1) (i + (j + 1)) i (j + 1) (by omega) (by omega),
    dtwGo_eq_of_le D (i + j + 1) (i + 1 + j) (i + 1) j (by omega) (by omega),
    dtwGo_eq_of_le D (i + j + 1) (i + j) i j (by omega) (by omega)]
  rfl

/-- backGo does not depend on the fuel once it is at least i + j. -/
theorem backGo_eq_of_le {α : Type} [LinearOrder α] [Add α] [Zero α] (D : List (List α)) :
    ∀ (f1 f2 i j : ℕ), i + j ≤ f1 → i + j ≤ f2 → backGo D f1 i j = backGo D f2 i j := by
  intro f1
  induction f1 with
  | zero =>
    intro f2 i j h1 h2
    have hi : i = 0 := by omega
    subst hi
    cases f2 <;> rfl
  | succ f ih =>
    intro f2 i j h1 h2
    match i, j with
    | 0, j => cases f2 <;> rfl
    | i + 1, 0 => cases f2 <;> rfl
    | i + 1, j + 1 =>
      cases f2 with
      | zero => omega
      | succ f2 =>
        simp only [backGo]
        by_cases hc1 : dtwTable D i (j + 1) ≤ dtwTable D (i + 1) j
            ∧ dtwTable D i (j + 1) ≤ dtwTable D i j
        · simp only [if_pos hc1]
          exact congrArg _ (ih f2 i (j + 1) (by omega) (by omega))
        · simp only [if_neg hc1]
          by_cases hc2 : dtwTable D (i + 1) j ≤ dtwTable D i j
          · simp only [if_pos hc2]
            exact congrArg _ (ih f2 (i + 1) j (by omega) (by omega))
          · simp only [if_neg hc2]
            exact congrArg _ (ih f2 i j (by omega) (by omega))

/-- One backtracking step: record (i, j) and move to nextCell. -/
theorem dtwBacktrack_succ_succ {α : Type} [LinearOrder α] [Add α] [Zero α]
    (D : List (List α)) (i j : ℕ) :
    dtwBacktrack D (i + 1) (j + 1)
      = (i, j) :: dtwBacktrack D (nextCell D i j).1 (nextCell D i j).2 := by
  show backGo D (i + 1 + (j + 1)) (i + 1) (j + 1) = _
  rw [show i + 1 + (j + 1) = (i + j + 1) + 1 from by omega]
  simp only [backGo, nextCell]
  by_cases hc1 : dtwTable D i (j + 1) ≤ dtwTable D (i + 1) j
      ∧ dtwTable D i (j + 1) ≤ dtwTable D i j
  · simp only [if_pos hc1]
    exact congrArg _ (backGo_eq_of_le D (i + j + 1) (i + (j + 1)) i (j + 1) (by omega) (by omega))
  · simp only [if_neg hc1]
    by_cases hc2 : dtwTable D (i + 1) j ≤ dtwTable D i j
    · simp only [if_pos hc2]
      exact congrArg _ (backGo_eq_of_le D (i + j + 1) (i + 1 + j) (i + 1) j (by omega) (by omega))
    · simp only [if_neg hc2]
      exact congrArg _ (backGo_eq_of_le D (i + j + 1) (i + j) i j (by omega) (by omega))

/-- C6 (amended): the table satisfies the stated recurrence, and at each
backtracking step the loop moves to a predecessor whose dtw value is minimal
among the three; ties, however, prefer the vertical predecessor (i-1, j)
first and take the diagonal only when it is strictly smaller than both
alternatives (the spec said diagonal is preferred on ties). -/
theorem dtw_backtrack_min_predecessor (D : List (List ℚ)) (i j : ℕ) :
    dtwTable D (i + 1) (j + 1)
      = (((D.getD i []).getD j 0 : ℚ) : WithTop ℚ)
        + min (dtwTable D i (j + 1)) (min (dtwTable D (i + 1) j) (dtwTable D i j))
    ∧ dtwBacktrack D (i + 1) (j + 1)
      = (i, j) :: dtwBacktrack D (nextCell D i j).1 (nextCell D i j).2
    ∧ dtwTable D (nextCell D i j).1 (nextCell D i j).2
      = min (dtwTable D i (j + 1)) (min (dtwTable D (i + 1) j) (dtwTable D i j))
    ∧ (dtwTable D i (j + 1) ≤ dtwTable D (i + 1) j ∧ dtwTable D i (j + 1) ≤ dtwTable D i j
        → nextCell D i j = (i, j + 1))
    ∧ (nextCell D i j = (i, j)
        → dtwTable D i j < dtwTable D i (j + 1) ∧ dtwTable D i j < dtwTable D (i + 1) j) := by
  refine ⟨dtwTable_succ_succ D i j, dtwBacktrack_succ_succ D i j, ?_, ?_, ?_⟩ <;>
    by_cases hc1 : dtwTable D i (j + 1) ≤ dtwTable D (i + 1) j
        ∧ dtwTable D i (j + 1) ≤ dtwTable D i j
  · simp only [nextCell, if_pos hc1]
    exact (min_eq_left (le_min hc1.1 hc1.2)).symm
  · rcases not_and_or.mp hc1 with hul | hud
    · by_cases hc2 : dtwTable D (i + 1) j ≤ dtwTable D i j
      · simp only [nextCell, if_neg hc1, if_pos hc2]
        rw [min_eq_left hc2, min_eq_right (le_of_lt (lt_of_not_le hul))]
      · simp only [nextCell, if_neg hc1, if_neg hc2]
        have hdl : dtwTable D i j < dtwTable D (i + 1) j := lt_of_not_le hc2
        have hdu : dtwTable D i j < dtwTable D i (j + 1) := hdl.trans (lt_of_not_le hul)
        rw [min_eq_right hdl.le, min_eq_right hdu.le]
    · by_cases hc2 : dtwTable D (i + 1) j ≤ dtwTable D i j
      · simp only [nextCell, if_neg hc1, if_pos hc2]
        have hlu : dtwTable D (i + 1) j ≤ dtwTable D i (j + 1) :=
          hc2.trans (le_of_lt (lt_of_not_le hud))
        rw [min_eq_left hc2, min_eq_right hlu]
      · simp only [nextCell, if_neg hc1, if_neg hc2]
        have hdl : dtwTable D i j < dtwTable D (i + 1) j := lt_of_not_le hc2
        have hdu : dtwTable D i j < dtwTable D i (j + 1) := lt_of_not_le hud
        rw [min_eq_right hdl.le, min_eq_right hdu.le]
  · intro _; simp only [nextCell, if_pos hc1]
  · intro h; exact absurd h hc1
  · intro h
    simp only [nextCell, if_pos hc1] at h
    have := congrArg Prod.snd h
    simp only at this
    omega
  · intro h
    rcases not_and_or.mp hc1 with hul | hud <;>
      by_cases hc2 : dtwTable D (i + 1) j ≤ dtwTable D i j
    · simp only [nextCell, if_neg hc1, if_pos hc2] at h
      have := congrArg Prod.fst h
      simp only at this
      omega
    · have hdl : dtwTable D i j < dtwTable D (i + 1) j := lt_of_not_le hc2
      exact ⟨hdl.trans (lt_of_not_le hul), hdl⟩
    · simp only [nextCell, if_neg hc1, if_pos hc2] at h
      have := congrArg Prod.fst h
      simp only at this
      omega
    · exact ⟨lt_of_not_le hud, lt_of_not_le hc2⟩

/-- C6 counterexample: on the 2x2 all-zero distance matrix the source's
backtrack takes the vertical predecessor on the three-way tie at (2,2),
producing the path (0,0),(0,1),(1,1), while the diagonal-preferring
backtrack of the spec produces (0,0),(1,1). -/
theorem dtw_backtrack_not_diagonal_preferring :
    dtwAlign ([[0, 0], [0, 0]] : List (List ℚ)) = [(0, 0), (0, 1), (1, 1)]
    ∧ specDtwAlign ([[0, 0], [0, 0]] : List (List ℚ)) = [(0, 0), (1, 1)]
    ∧ dtwAlign ([[0, 0], [0, 0]] : List (List ℚ))
        ≠ specDtwAlign ([[0, 0], [0, 0]] : List (List ℚ)) := by
  refine ⟨?_, ?_, ?_⟩
  · norm_num [dtwAlign, dtwBacktrack, backGo, dtwTable, dtwGo]
  · norm_num [specDtwAlign, specBackGo, dtwTable, dtwGo]
  · norm_num [dtwAlign, specDtwAlign, dtwBacktrack, backGo, specBackGo, dtwTable, dtwGo]

/-- Concrete instance of tempo_alignment_follows_spec at bpm 120 and 125. -/
theorem tempo_alignment_follows_spec_witness :
    (calculateTempoAlignment 120 125 [] []).targetBpm = max 120 125
    ∧ (calculateTempoAlignment 120 125 [] []).stretchA = max (1/2) (min 2 (max 120 125 / 120))
    ∧ (calculateTempoAlignment 120 125 [] []).stretchB = max (1/2) (min 2 (max 120 125 / 125))
    ∧ (1/2 ≤ (calculateTempoAlignment 120 125 [] []).stretchA
        ∧ (calculateTempoAlignment 120 125 [] []).stretchA ≤ 2)
    ∧ (1/2 ≤ (calculateTempoAlignment 120 125 [] []).stretchB
        ∧ (calculateTempoAlignment 120 125 [] []).stretchB ≤ 2)
    ∧ ((calculateTempoAlignment 120 125 [] []).quality = "high"
        ↔ max (calculateTempoAlignment 120 125 [] []).stretchA
            (calculateTempoAlignment 120 125 [] []).stretchB < 3/2)
    ∧ ((calculateTempoAlignment 120 125 [] []).quality = "medium"
        ↔ ¬ max (calculateTempoAlignment 120 125 [] []).stretchA
            (calculateTempoAlignment 120 125 [] []).stretchB < 3/2) :=
  tempo_alignment_follows_spec 120 125 [] [] (by norm_num) (by norm_num) _ rfl


/-! ### Analysis: key to Camelot (C3) and structure sections (C7) -/

/-- C3: the source maps a detected minor key through minor_to_major (three
semitones down) and then the major table, so A minor yields the B-ring label
2B, while the table-derived label of the spec (relative major (root+3) mod 12,
A ring) is 8A, the value the repo's own test_a_minor_chroma asserts. -/
theorem minor_key_camelot_contradicts_table :
    analyzeKeyCamelot "minor" "A" = "2B"
    ∧ specCamelotOfKey "minor" "A" = "8A"
    ∧ analyzeKeyCamelot "minor" "A" ≠ specCamelotOfKey "minor" "A" := by decide

/-- Component (i) of the section list for i < times.length. -/
theorem analyzeStructure_getD (times : List ℚ) (duration : ℚ) (i : ℕ)
    (h : i < times.length) :
    (analyzeStructure times duration).getD i ⟨0, 0, ""⟩
      = { start := if i = 0 then 0 else times.getD (i - 1) 0
          stop := if i = times.length - 1 then duration else times.getD i 0
          label := sectionLabel i } := by
  unfold analyzeStructure
  rw [List.getD_eq_getElem?_getD, List.getElem?_map, List.getElem?_range h]
  rfl

/-- C7 (amended): for strictly increasing interior boundaries b1 < ... < bn,
the source builds exactly n sections: \[0,b1), \[b1,b2), ..., \[b(n-1), duration]
(the last boundary bn is never used as a cut), and these partition
\[0, duration] with every start below its stop. -/
theorem structure_sections_partition (times : List ℚ) (duration : ℚ)
    (hchain : List.Chain (· < ·) 0 times)
    (hless : ∀ b ∈ times, b < duration)
    (hne : times ≠ []) :
    (analyzeStructure times duration).length = times.length
    ∧ ((analyzeStructure times duration).getD 0 ⟨0, 0, ""⟩).start = 0
    ∧ ((analyzeStructure times duration).getD (times.length - 1) ⟨0, 0, ""⟩).stop = duration
    ∧ (∀ i, i + 1 < times.length →
        ((analyzeStructure times duration).getD (i + 1) ⟨0, 0, ""⟩).start
          = ((analyzeStructure times duration).getD i ⟨0, 0, ""⟩).stop)
    ∧ (∀ i, i < times.length →
        ((analyzeStructure times duration).getD i ⟨0, 0, ""⟩).start
          < ((analyzeStructure times duration).getD i ⟨0, 0, ""⟩).stop) := by
  have hlen : 0 < times.length := List.length_pos.mpr hne
  have hp : List.Pairwise (· < ·) ((0 : ℚ) :: times) := List.chain_iff_pairwise.mp hchain
  obtain ⟨h0, hpt⟩ := List.pairwise_cons.mp hp
  have hgetlt : ∀ i j, ∀ hi : i < times.length, ∀ hj : j < times.length, i < j →
      times.getD i 0 < times.getD j 0 := by
    intro i j hi hj hij
    rw [List.getD_eq_getElem _ _ hi, List.getD_eq_getElem _ _ hj]
    exact List.pairwise_iff_get.mp hpt ⟨i, hi⟩ ⟨j, hj⟩ hij
  have hmem : ∀ i, ∀ hi : i < times.length, times.getD i 0 ∈ times := by
    intro i hi
    rw [List.getD_eq_getElem _ _ hi]
    exact List.get_mem times i hi
  have hpos : ∀ i, ∀ hi : i < times.length, 0 < times.getD i 0 :=
    fun i hi => h0 _ (hmem i hi)
  refine ⟨by simp [analyzeStructure], ?_, ?_, ?_, ?_⟩
  · rw [analyzeStructure_getD _ _ 0 hlen]
    simp
  · rw [analyzeStructure_getD _ _ (times.length - 1) (by omega)]
    simp
  · intro i hi
    rw [analyzeStructure_getD _ _ (i + 1) hi, analyzeStructure_getD _ _ i (by omega)]
    simp only
    rw [if_neg (by omega : ¬ i + 1 = 0), if_neg (by omega : ¬ i = times.length - 1)]
    simp
  · intro i hi
    rw [analyzeStructure_getD _ _ i hi]
    simp only
    by_cases h0i : i = 0
    · subst h0i
      rw [if_pos rfl]
      by_cases hlast : (0 : ℕ) = times.length - 1
      · rw [if_pos hlast]
        exact (hpos 0 hlen).trans (hless _ (hmem 0 hlen))
      · rw [if_neg hlast]
        exact hpos 0 hlen
    · rw [if_neg h0i]
      by_cases hlast : i = times.length - 1
      · rw [if_pos hlast]
        exact hless _ (hmem (i - 1) (by omega))
      · rw [if_neg hlast]
        exact hgetlt (i - 1) i (by omega) hi (by omega)

/-- Concrete instance of structure_sections_partition at boundaries 3, 5 and
duration 10. -/
theorem structure_sections_partition_witness :
    (analyzeStructure [3, 5] 10).length = ([3, 5] : List ℚ).length
    ∧ ((analyzeStructure [3, 5] 10).getD 0 ⟨0, 0, ""⟩).start = 0
    ∧ ((analyzeStructure [3, 5] 10).getD (([3, 5] : List ℚ).length - 1) ⟨0, 0, ""⟩).stop = 10
    ∧ (∀ i, i + 1 < ([3, 5] : List ℚ).length →
        ((analyzeStructure [3, 5] 10).getD (i + 1) ⟨0, 0, ""⟩).start
          = ((analyzeStructure [3, 5] 10).getD i ⟨0, 0, ""⟩).stop)
    ∧ (∀ i, i < ([3, 5] : List ℚ).length →
        ((analyzeStructure [3, 5] 10).getD i ⟨0, 0, ""⟩).start
          < ((analyzeStructure [3, 5] 10).getD i ⟨0, 0, ""⟩).stop) :=
  structure_sections_partition [3, 5] 10
    (by norm_num [List.chain_cons]) (by norm_num) (by simp)

/-- C7 counterexample: with a single detected boundary (5) in a 10 second
track the source returns the single section \[0, 10] instead of the two
segments \[0, 5), \[5, 10] the spec prescribes. -/
theorem structure_drops_last_boundary :
    ((analyzeStructure [5] 10).map fun s => (s.start, s.stop)) = [(0, 10)]
    ∧ specStructure [5] 10 = [(0, 5), (5, 10)]
    ∧ ((analyzeStructure [5] 10).map fun s => (s.start, s.stop)) ≠ specStructure [5] 10 := by
  refine ⟨?_, by norm_num [specStructure], ?_⟩
  · norm_num [analyzeStructure, List.range_succ]
  · norm_num [analyzeStructure, specStructure, List.range_succ]


/-! ### Renderer theorems (C2, C9, C4) -/

/-- C2: the recipe mix table is not honored.  Under BoverA the vocals stem is
still transformed with track A's (stretch, shift) and the instrumental stems
with track B's, although the spec's table says vocals come from B and the
rest from A; and under HybridDrums the bass stem is mixed once at gain 0.8
rather than as an equal-gain sum of both tracks' bass stems. -/
theorem transforms_ignore_recipe :
    applyTransforms [("vocals", []), ("drums", [])]
        { targetKey := "8B", keyShiftA := 0, keyShiftB := 3,
          stretchMap := { targetBpm := 120, stretchA := 1, stretchB := 2, quality := "high" },
          sectionPairs := [], qualityHints := [], recipe := "BoverA",
          compatibility :=
            { keyScore := 0, tempoScore := 0, structureScore := 0, overallScore := 0 } }
      = [("vocals", (1, 0)), ("drums", (2, 3))]
    ∧ specStemSource "BoverA" "vocals" = "B"
    ∧ specStemSource "HybridDrums" "bass" = "mixed"
    ∧ mixStems [("bass", [1])] "HybridDrums" [] = [8/10] := by
  refine ⟨by decide, by decide, by decide, ?_⟩
  have hv : getStem [("bass", [(1 : ℚ)])] "vocals" = none := by decide
  have hd : getStem [("bass", [(1 : ℚ)])] "drums" = none := by decide
  have hb : getStem [("bass", [(1 : ℚ)])] "bass" = some [1] := by decide
  have ho : getStem [("bass", [(1 : ℚ)])] "other" = none := by decide
  rw [mixStems]
  rw [if_neg (by decide : ¬ ("HybridDrums" : String) = "AoverB"),
    if_neg (by decide : ¬ ("HybridDrums" : String) = "BoverA"),
    if_pos (rfl : ("HybridDrums" : String) = "HybridDrums")]
  simp only [addIf, hv, hd, hb, ho]
  norm_num [addStem, lookupGain, maxStemLength]

/-- C9 counterexample: with the vocals stem absent the mixer still produces a
mix of the present stems (drums, bass, other at the AoverB default gains),
rather than failing with a MissingStem error. -/
theorem mix_without_vocals_produces_output :
    mixStems [("drums", [1/2]), ("bass", [1/4]), ("other", [1/4])] "AoverB" [] = [29/40] := by
  have hv : getStem [("drums", [(1 : ℚ)/2]), ("bass", [1/4]), ("other", [1/4])] "vocals"
      = none := by simp [getStem]
  have hd : getStem [("drums", [(1 : ℚ)/2]), ("bass", [1/4]), ("other", [1/4])] "drums"
      = some [1/2] := by simp [getStem]
  have hb : getStem [("drums", [(1 : ℚ)/2]), ("bass", [1/4]), ("other", [1/4])] "bass"
      = some [1/4] := by simp [getStem]
  have ho : getStem [("drums", [(1 : ℚ)/2]), ("bass", [1/4]), ("other", [1/4])] "other"
      = some [1/4] := by simp [getStem]
  rw [mixStems]
  rw [if_pos (rfl : ("AoverB" : String) = "AoverB")]
  simp only [addIf, hv, hd, hb, ho]
  norm_num [addStem, lookupGain, maxStemLength]

/-- Prepending an unrelated gain key leaves a lookup unchanged. -/
theorem lookupGain_cons_of_ne (k : String) (g : ℚ) (mp : List (String × ℚ))
    (k2 : String) (d : ℚ) (h : ¬ k = k2) :
    lookupGain ((k, g) :: mp) k2 d = lookupGain mp k2 d := by
  simp [lookupGain, List.find?_cons, h]

/-- C9 (amended): a missing vocals stem is silently skipped: the mix does not
depend on the vocals gain parameter at all, and no error is raised (the
embedding is total; the source's only failure surface is the generic
RuntimeError wrapper around the whole render). -/
theorem mix_stems_skips_missing_vocals (stems : List (String × List ℚ)) (recipe : String)
    (mp : List (String × ℚ)) (g : ℚ) (h : getStem stems "vocals" = none) :
    mixStems stems recipe (("vocals_gain", g) :: mp) = mixStems stems recipe mp := by
  have hv : ∀ (mix : List ℚ) (gain : ℚ), addIf stems mix "vocals" gain = mix := by
    intro mix gain
    simp [addIf, h]
  have hd : ∀ d : ℚ, lookupGain (("vocals_gain", g) :: mp) "drums_gain" d
      = lookupGain mp "drums_gain" d :=
    fun d => lookupGain_cons_of_ne _ _ _ _ _ (by decide)
  have hb : ∀ d : ℚ, lookupGain (("vocals_gain", g) :: mp) "bass_gain" d
      = lookupGain mp "bass_gain" d :=
    fun d => lookupGain_cons_of_ne _ _ _ _ _ (by decide)
  have ho : ∀ d : ℚ, lookupGain (("vocals_gain", g) :: mp) "other_gain" d
      = lookupGain mp "other_gain" d :=
    fun d => lookupGain_cons_of_ne _ _ _ _ _ (by decide)
  unfold mixStems
  by_cases h1 : recipe = "AoverB"
  · simp only [if_pos h1, hv, hd, hb, ho]
  · simp only [if_neg h1]
    by_cases h2 : recipe = "BoverA"
    · simp only [if_pos h2, hv, hd, hb, ho]
    · simp only [if_neg h2]
      by_cases h3 : recipe = "HybridDrums"
      · simp only [if_pos h3, hv, hd, hb, ho]
      · simp only [if_neg h3]

/-- Concrete instance of mix_stems_skips_missing_vocals: a drums-only input
mixes identically with and without a vocals_gain parameter. -/
theorem mix_stems_skips_missing_vocals_witness :
    mixStems [("drums", [1])] "AoverB" [("vocals_gain", 5)]
      = mixStems [("drums", [1])] "AoverB" [] :=
  mix_stems_skips_missing_vocals [("drums", [1])] "AoverB" [] 5 (by simp [getStem])

/-! ### Mastering peak bound (C4) -/

theorem peakOf_cons (x : ℝ) (xs : List ℝ) : peakOf (x :: xs) = max |x| (peakOf xs) := rfl

theorem peakOf_nonneg (xs : List ℝ) : 0 ≤ peakOf xs := by
  induction xs with
  | nil => simp [peakOf]
  | cons x xs ih => rw [peakOf_cons]; exact le_max_of_le_right ih

theorem peakOf_replicate_zero (n : ℕ) : peakOf (List.replicate n (0 : ℝ)) = 0 := by
  induction n with
  | zero => rfl
  | succ n ih => rw [List.replicate_succ, peakOf_cons, ih]; simp

theorem peakOf_map_mul (c : ℝ) (hc : 0 ≤ c) (xs : List ℝ) :
    peakOf (xs.map fun x => x * c) = c * peakOf xs := by
  induction xs with
  | nil => simp [peakOf]
  | cons x xs ih =>
    rw [List.map_cons, peakOf_cons, peakOf_cons, ih, abs_mul, abs_of_nonneg hc,
      mul_max_of_nonneg _ _ hc, mul_comm c |x|]

theorem sumSq_cons (x : ℝ) (xs : List ℝ) : sumSq (x :: xs) = x ^ 2 + sumSq xs := by
  simp [sumSq]

theorem sumSq_replicate_zero (n : ℕ) : sumSq (List.replicate n (0 : ℝ)) = 0 := by
  simp [sumSq, List.map_replicate]

/-- C4: the RMS fallback of the mastering stage violates the headroom bound.
On the 121-sample input 0.5, 0, ..., 0 with the default headroom of 1 dB the
output peak is (11/10) * 10^(-1/20), strictly above the required
10^(-headroom_db/20): the RMS gain (here 0.1/(1/22) = 2.2) has no peak guard
after it, unlike the LUFS path. -/
theorem rms_fallback_breaks_headroom_bound :
    (10 : ℝ) ^ (-(1 : ℝ) / 20)
      < peakOf (masterAudioRms ((1/2 : ℝ) :: List.replicate 120 0) 1) := by
  have hpeak : peakOf ((1/2 : ℝ) :: List.replicate 120 0) = 1/2 := by
    rw [peakOf_cons, peakOf_replicate_zero]
    norm_num
  have hlen : ((1/2 : ℝ) :: List.replicate 120 0).length = 121 := by simp
  have hss : sumSq ((1/2 : ℝ) :: List.replicate 120 0) = 1/4 := by
    rw [sumSq_cons, sumSq_replicate_zero]
    norm_num
  have hrms : rmsOf ((1/2 : ℝ) :: List.replicate 120 0) = 1/22 := by
    rw [rmsOf, hss, hlen]
    rw [show (1/4 : ℝ) / (121 : ℕ) = (1/22) ^ 2 by push_cast; norm_num]
    exact Real.sqrt_sq (by norm_num)
  have hguard : ¬ (99/100 : ℝ) < peakOf ((1/2 : ℝ) :: List.replicate 120 0) := by
    rw [hpeak]
    norm_num
  have hpos : (0 : ℝ) < (10 : ℝ) ^ (-(1 : ℝ) / 20) := Real.rpow_pos_of_pos (by norm_num) _
  have hfun : (fun x : ℝ => x * (1/10 / rmsOf ((1/2 : ℝ) :: List.replicate 120 0)))
      = fun x : ℝ => x * (11/5) := by
    funext x
    rw [hrms]
    norm_num
  simp only [masterAudioRms, normalizeRms, if_neg hguard, hrms]
  rw [if_pos (by norm_num : (0 : ℝ) < (1 : ℝ)/22)]
  rw [show (fun x : ℝ => x * (1/10 / ((1 : ℝ)/22))) = fun x : ℝ => x * (11/5) from by
    funext x; norm_num]
  rw [peakOf_map_mul _ hpos.le, peakOf_map_mul _ (by norm_num : (0 : ℝ) ≤ 11/5), hpeak]
  rw [show (11/5 : ℝ) * (1/2) = 11/10 by norm_num]
  exact (lt_mul_iff_one_lt_right hpos).mpr (by norm_num)


/-! ### Planner pipeline theorems (C1, C10) -/

/-- On a 1 x 1 distance matrix the alignment is the single pair (0, 0):
the only finite predecessor of cell (1, 1) is the diagonal (0, 0). -/
theorem dtwAlign_single {α : Type} [LinearOrder α] [Add α] [Zero α] (x : α) :
    dtwAlign [[x]] = [(0, 0)] := by
  have h1 : ¬ (dtwTable ([[x]] : List (List α)) 0 1 ≤ dtwTable ([[x]] : List (List α)) 1 0
      ∧ dtwTable ([[x]] : List (List α)) 0 1 ≤ dtwTable ([[x]] : List (List α)) 0 0) := by
    intro hcon
    have h := hcon.2
    rw [show dtwTable ([[x]] : List (List α)) 0 1 = ⊤ from rfl,
      show dtwTable ([[x]] : List (List α)) 0 0 = ((0 : α) : WithTop α) from rfl] at h
    exact WithTop.coe_ne_top (top_le_iff.mp h)
  have h2 : ¬ dtwTable ([[x]] : List (List α)) 1 0 ≤ dtwTable ([[x]] : List (List α)) 0 0 := by
    intro h
    rw [show dtwTable ([[x]] : List (List α)) 1 0 = ⊤ from rfl,
      show dtwTable ([[x]] : List (List α)) 0 0 = ((0 : α) : WithTop α) from rfl] at h
    exact WithTop.coe_ne_top (top_le_iff.mp h)
  show (backGo ([[x]] : List (List α)) (1 + 1) 1 1).reverse = [(0, 0)]
  simp only [backGo]
  rw [if_neg h1, if_neg h2]
  simp only [backGo, List.reverse_cons, List.reverse_nil, List.nil_append]

/-- When beats is empty or its maximum is nonzero, feature extraction
succeeds with the per-section vectors. -/
theorem extractSectionFeatures_ok (sections : List Section) (beats : List ℚ)
    (h : beats = [] ∨ ¬ listMax beats = 0) :
    extractSectionFeatures sections beats
      = Except.ok (sections.map fun s =>
          [s.stop - s.start, sectionTypeId s.label,
            if beats = [] then 0 else s.start / listMax beats]) := by
  induction sections with
  | nil => rfl
  | cons s rest ih =>
    have hf : sectionFeature beats s
        = Except.ok [s.stop - s.start, sectionTypeId s.label,
            if beats = [] then 0 else s.start / listMax beats] := by
      rcases h with h | h
      · rw [sectionFeature, if_pos h, if_pos h]
      · have hne : beats ≠ [] := fun he => h (by rw [he]; rfl)
        rw [sectionFeature, if_neg hne, if_neg h, if_neg hne]
    simp only [extractSectionFeatures, hf, ih, List.map_cons]

/-- _pair_sections on single-section tracks, with both max-beat divisions
defined, yields one pair with alignment 0 and confidence 0.8, regardless of
the feature values. -/
theorem pairSections_single (sa sb : Section) (beatsA beatsB : List ℚ)
    (hA : beatsA = [] ∨ ¬ listMax beatsA = 0)
    (hB : beatsB = [] ∨ ¬ listMax beatsB = 0) :
    pairSections [sa] [sb] beatsA beatsB
      = Except.ok [{ sectionA := sa, sectionB := sb, alignment := 0, confidence := 4/5 }] := by
  unfold pairSections
  rw [extractSectionFeatures_ok _ _ hA, extractSectionFeatures_ok _ _ hB]
  simp only [List.map_cons, List.map_nil, distMatrix]
  rw [dtwAlign_single]
  simp [List.enum]

/-- C1: at track keys C (8B) and G# (4B) - a pair from the repo's own
test_key_shift_limits - the planner picks target 4B and returns
keyShiftA = -4, outside the clamped range, and its quality hints do not
contain the string "consider manual key adjustment". -/
theorem plan_shift_exceeds_three_without_hint :
    (createPlan
        { bpm := 120, key := "C", camelot := "8B", beats := [0, 60],
          sections := [{ start := 0, stop := 60, label := "verse" }] }
        { bpm := 120, key := "G#", camelot := "4B", beats := [0, 60],
          sections := [{ start := 0, stop := 60, label := "verse" }] } "AoverB").map
      (fun p => (p.keyShiftA, p.qualityHints))
      = Except.ok (-4, ["Consider key adjustment for better harmony",
          "Tempo alignment looks good", "Minimal tempo stretching required",
          "Limited structural overlap - consider manual alignment"])
    ∧ ¬ ((-3 : ℤ) ≤ -4 ∧ (-4 : ℤ) ≤ 3)
    ∧ "consider manual key adjustment" ∉ ["Consider key adjustment for better harmony",
          "Tempo alignment looks good", "Minimal tempo stretching required",
          "Limited structural overlap - consider manual alignment"] := by
  refine ⟨?_, by decide, by decide⟩
  have htk : chooseTargetKey "C" "G#" = ("4B", -4, 0) := by decide
  have hcompat : analyzeCompatibility
      { bpm := 120, key := "C", camelot := "8B", beats := [0, 60],
          sections := [{ start := 0, stop := 60, label := "verse" }] }
      { bpm := 120, key := "G#", camelot := "4B", beats := [0, 60],
          sections := [{ start := 0, stop := 60, label := "verse" }] }
      = { keyScore := 3, tempoScore := 0, structureScore := 0, overallScore := 1 } := by
    have hks : compatLookup "8B" "4B" = 3 := by decide
    have hss : structureCompatScore [{ start := 0, stop := 60, label := "verse" }]
        [{ start := 0, stop := 60, label := "verse" }] = 0 := by
      norm_num [structureCompatScore, List.dedup_cons_of_not_mem, List.count_cons]
    norm_num [analyzeCompatibility, hks, hss]
  have hstretch : calculateTempoAlignment 120 120 [0, 60] [0, 60]
      = { targetBpm := 120, stretchA := 1, stretchB := 1, quality := "high" } := by
    norm_num [calculateTempoAlignment]
  rw [createPlan, if_pos (by decide : ("AoverB" : String) ∈ recipeNames),
    pairSections_single _ _ _ _ (Or.inr (by norm_num [listMax, List.foldl]))
      (Or.inr (by norm_num [listMax, List.foldl]))]
  simp only [Except.map]
  rw [htk, hcompat, hstretch]
  simp [assessQuality]

/-- C10 (amended): besides the unrecognized-recipe error, create_plan also
fails - recipe recognized - when the position feature divides by zero, that
is when a track has nonempty beats with max(beats) = 0 and nonempty
sections.  When both tracks' max beat is nonzero, failure happens exactly on
an unrecognized recipe; and a key string outside the key map is silently
treated as Camelot 8B (C major) for target-key selection and shifts. -/
theorem create_plan_error_iff (trackA trackB : Analysis) (recipe k keyB : String)
    (hsa : trackA.sections ≠ []) (hsb : trackB.sections ≠ [])
    (hba : trackA.beats ≠ []) (hbb : trackB.beats ≠ [])
    (hpa : 0 < trackA.bpm) (hpb : 0 < trackB.bpm)
    (hma : ¬ listMax trackA.beats = 0) (hmb : ¬ listMax trackB.beats = 0)
    (hk : keyMapPairs.find? (fun p => p.1 = k) = none) :
    (planOk (createPlan trackA trackB recipe) = true
      ↔ (recipe = "AoverB" ∨ recipe = "BoverA" ∨ recipe = "HybridDrums"))
    ∧ keyToCamelot k = "8B"
    ∧ chooseTargetKey k keyB = chooseTargetKey "C" keyB := by
  have hcam : keyToCamelot k = "8B" := by simp [keyToCamelot, hk]
  refine ⟨?_, hcam, ?_⟩
  · by_cases h : recipe ∈ recipeNames
    · obtain ⟨ps, hps⟩ : ∃ ps,
          pairSections trackA.sections trackB.sections trackA.beats trackB.beats
            = Except.ok ps := by
        unfold pairSections
        rw [extractSectionFeatures_ok _ _ (Or.inr hma),
          extractSectionFeatures_ok _ _ (Or.inr hmb)]
        exact ⟨_, rfl⟩
      rw [createPlan, if_pos h, hps]
      constructor
      · intro _
        simpa [recipeNames] using h
      · intro _
        rfl
    · rw [createPlan, if_neg h]
      constructor
      · intro hfalse
        exact absurd hfalse (by simp [planOk])
      · intro hmem
        exact absurd (by simpa [recipeNames] using hmem) h
  · have h2 : keyToCamelot "C" = "8B" := by decide
    simp only [chooseTargetKey, hcam, h2]

/-- C10 counterexample: with beats = \[0.0] - nonempty, so allowed by the
claim's preconditions, with positive bpm and a nonempty section list - and
the recognized recipe AoverB, create_plan fails: the position feature
start / max(beats) divides by zero.  An unrecognized recipe is therefore not
the only failure cause. -/
theorem create_plan_fails_on_zero_max_beat :
    planOk (createPlan
        { bpm := 120, key := "C", camelot := "8B", beats := [0],
          sections := [{ start := 0, stop := 60, label := "verse" }] }
        { bpm := 120, key := "C", camelot := "8B", beats := [0],
          sections := [{ start := 0, stop := 60, label := "verse" }] } "AoverB") = false
    ∧ ("AoverB" : String) ∈ recipeNames
    ∧ ([(0 : ℚ)] : List ℚ) ≠ []
    ∧ (0 : ℚ) < 120
    ∧ ([{ start := 0, stop := 60, label := "verse" }] : List Section) ≠ [] := by
  refine ⟨?_, by decide, by decide, by norm_num, by decide⟩
  have hsf : sectionFeature [(0 : ℚ)] { start := 0, stop := 60, label := "verse" }
      = Except.error "float division by zero" := by
    rw [sectionFeature, if_neg (by decide : ¬ ([(0 : ℚ)] : List ℚ) = []),
      if_pos (show listMax [(0 : ℚ)] = 0 from rfl)]
  have hf : extractSectionFeatures [{ start := 0, stop := 60, label := "verse" }] [(0 : ℚ)]
      = Except.error "float division by zero" := by
    simp only [extractSectionFeatures, hsf]
  have hps : pairSections [{ start := 0, stop := 60, label := "verse" }]
      [{ start := 0, stop := 60, label := "verse" }] [(0 : ℚ)] [(0 : ℚ)]
      = Except.error "float division by zero" := by
    unfold pairSections
    rw [hf]
  rw [createPlan, if_pos (by decide : ("AoverB" : String) ∈ recipeNames), hps]
  rfl

/-- Concrete instance of create_plan_error_iff: the recipe "Jazz" is rejected
while the unknown key "CM" behaves exactly like "C". -/
theorem create_plan_error_iff_witness :
    (planOk (createPlan
        { bpm := 120, key := "C", camelot := "8B", beats := [60],
          sections := [{ start := 0, stop := 60, label := "verse" }] }
        { bpm := 120, key := "C", camelot := "8B", beats := [60],
          sections := [{ start := 0, stop := 60, label := "verse" }] } "Jazz") = true
      ↔ (("Jazz" : String) = "AoverB" ∨ ("Jazz" : String) = "BoverA"
          ∨ ("Jazz" : String) = "HybridDrums"))
    ∧ keyToCamelot "CM" = "8B"
    ∧ chooseTargetKey "CM" "G" = chooseTargetKey "C" "G" :=
  create_plan_error_iff _ _ "Jazz" "CM" "G" (by decide) (by decide) (by decide) (by decide)
    (by norm_num) (by norm_num) (by norm_num [listMax, List.foldl])
    (by norm_num [listMax, List.foldl]) (by decide)

end SongMasher
